import Mathlib

/-!
Verification development for the YouVid-Downloader repository
(src/app/youtube_downloader.py).

The Python module is embedded shallowly: pure helpers become Lean
functions on lists of characters and rationals; the stateful
DownloadManager.start read loop becomes a function of an explicit
interleaving schedule (when the cancel flag lands, where a read
exception occurs, what lines the child emits, the exit code); the
configuration file becomes an explicit file-state datatype.  Floating
point percentages are idealised as exact rationals, since the parsed
values are short decimal literals.
-/

/-! ## String utilities (models of Python str operations) -/

/-- Model of the needle being an initial run of the haystack. -/
def leadMatch : List Char → List Char → Bool
  | [], _ => true
  | _ :: _, [] => false
  | a :: as, b :: bs => a = b && leadMatch as bs

/-- Model of Python substring containment over character lists. -/
def hasSub (needle : List Char) : List Char → Bool
  | [] => needle.isEmpty
  | c :: rest => leadMatch needle (c :: rest) || hasSub needle rest

/-- Model of the Python expression needle in s. -/
def containsSub (needle s : String) : Bool := hasSub needle.data s.data

/-- The text after the first occurrence of the needle, when present.
Models s.split(needle, 1)[1]. -/
def afterFirstAux (needle : List Char) : List Char → Option (List Char)
  | [] => if needle.isEmpty then some [] else none
  | c :: rest =>
    if leadMatch needle (c :: rest) then some ((c :: rest).drop needle.length)
    else afterFirstAux needle rest

/-- Model of s.split(needle, 1)[1] for strings; none when absent. -/
def afterFirst (needle s : String) : Option String :=
  (afterFirstAux needle.data s.data).map String.mk

/-- Python whitespace for str.strip. -/
def isPySpace (c : Char) : Bool :=
  c = ' ' || c = '\t' || c = '\n' || c = '\r' || c = '\x0b' || c = '\x0c'

/-- Model of str.strip. -/
def pyStrip (s : String) : String :=
  String.mk (((s.data.dropWhile isPySpace).reverse.dropWhile isPySpace).reverse)

/-- Path separators recognised by os.path on the Windows target. -/
def isSep (c : Char) : Bool := c = '/' || c = '\\'

/-- Model of os.path.basename: the part after the last separator. -/
def baseNameChars (l : List Char) : List Char :=
  (l.reverse.takeWhile (fun c => !isSep c)).reverse

/-- Split a basename into stem and extension, following os.path.splitext:
the extension starts at the last dot, provided some earlier character of
the basename is not a dot (so dotfiles have no extension). -/
def extSplitBase (b : List Char) : List Char × List Char :=
  let after := b.reverse.takeWhile (fun c => c ≠ '.')
  if after.length = b.length then (b, [])
  else
    let dotIdx := b.length - after.length - 1
    if (b.take dotIdx).any (fun c => c ≠ '.') then (b.take dotIdx, b.drop dotIdx)
    else (b, [])

/-- Model of os.path.splitext(path)[1]: the extension of a full path,
which equals the extension of its basename. -/
def pathExt (s : String) : String := String.mk (extSplitBase (baseNameChars s.data)).2

/-- Model of os.path.splitext(os.path.basename(path))[0], the display
stem used by the single-download line callback. -/
def pathStem (s : String) : String := String.mk (extSplitBase (baseNameChars s.data)).1

/-- ASCII lowercase, modelling str.lower on extension strings. -/
def strLower (s : String) : String := String.mk (s.data.map Char.toLower)

/-! ## PERC_RE: model of re.compile(r"(\d{1,3}\.\d+)%").search

The regex has one group, digits dot digits followed by a percent sign.
A match at one position tries three, then two, then one integer digits
(the three alternatives require a dot at different offsets, so at most
one succeeds); the fractional part is a maximal nonempty digit run that
must be followed directly by the percent character.  search returns the
leftmost match. -/

/-- Try to match the pattern at the head of cs with exactly l integer
digits; returns the two digit groups. -/
def matchLen (l : Nat) (cs : List Char) : Option (List Char × List Char) :=
  let a := cs.take l
  let rest := cs.drop l
  if a.length = l && a.all Char.isDigit then
    match rest with
    | '.' :: r2 =>
      match r2.takeWhile Char.isDigit, r2.dropWhile Char.isDigit with
      | [], _ => none
      | b, '%' :: _ => some (a, b)
      | _, _ => none
    | _ => none
  else none

/-- Try a match at the head of cs, greedy on the integer digits. -/
def matchPercAt (cs : List Char) : Option (List Char × List Char) :=
  ((matchLen 3 cs).orElse fun _ => (matchLen 2 cs).orElse fun _ => matchLen 1 cs)

/-- Leftmost match over all start positions. -/
def percSearchChars : List Char → Option (List Char × List Char)
  | [] => none
  | c :: rest =>
    match matchPercAt (c :: rest) with
    | some r => some r
    | none => percSearchChars rest

/-- Model of PERC_RE.search(line), returning group 1 as the pair of its
integer and fractional digit runs. -/
def percSearch (s : String) : Option (List Char × List Char) := percSearchChars s.data

/-- Numeric value of a digit run. -/
def natOfDigits (l : List Char) : Nat :=
  l.foldl (fun n c => 10 * n + (c.toNat - 48)) 0

/-- Exact rational value of the decimal literal with integer digits a and
fractional digits b, modelling float(m.group(1)). -/
def decVal (a b : List Char) : ℚ :=
  (natOfDigits a : ℚ) + (natOfDigits b : ℚ) / (10 : ℚ) ^ b.length

/-- Model of float(m.group(1)) / 100.0 applied to the first regex match
of the line, as computed by the single and playlist line callbacks. -/
def lineFraction (s : String) : Option ℚ :=
  (percSearch s).map fun p => decVal p.1 p.2 / 100

/-- Clamp to the unit interval. -/
def clamp01 (x : ℚ) : ℚ := max 0 (min x 1)

/-- Modelled from the claim wording, for comparison with lineFraction:
the first matched number divided by 100 and clamped to the unit
interval. -/
def clampedFraction (s : String) : Option ℚ :=
  (percSearch s).map fun p => clamp01 (decVal p.1 p.2 / 100)

/-! ## Configuration (DEFAULT_CONFIG, load_config, save_config) -/

/-- JSON-representable configuration values. -/
inductive CVal where
  | s (v : String)
  | b (v : Bool)
  | num (v : Int)
  | nullv
deriving DecidableEq

/-- A parsed JSON object, as an insertion-ordered key-value list with
first-match lookup (Python dict semantics for the keys used here). -/
abbrev ConfigRec := List (String × CVal)

/-- Dict lookup: the value at the first matching key. -/
def dictLookup (k : String) : ConfigRec → Option CVal
  | [] => none
  | kv :: rest => if kv.1 = k then some kv.2 else dictLookup k rest

/-- Host-dependent default download folder; the concrete value is
irrelevant to every claim. -/
def DEFAULT_DOWNLOAD : String := "~/Downloads"

/-- Host-dependent icon path; the concrete value is irrelevant to every
claim. -/
def ICON_PATH : String := "resources/icon.ico"

/-- The DEFAULT_CONFIG dict of the module, in source order. -/
def DEFAULT_CONFIG : ConfigRec :=
  [("download_folder", CVal.s DEFAULT_DOWNLOAD),
   ("theme", CVal.s "dark"),
   ("auto_open_folder", CVal.b true),
   ("auto_update_ytdlp", CVal.b true),
   ("audio_format", CVal.s "m4a"),
   ("last_checked", CVal.nullv),
   ("app_icon", CVal.s ICON_PATH)]

/-- The merge loop of load_config: iterate the default items in order and
append any key not already present (dict insertion appends at the end). -/
def mergeMissing : List (String × CVal) → ConfigRec → ConfigRec
  | [], c => c
  | kv :: rest, c =>
    mergeMissing rest (if (dictLookup kv.1 c).isSome then c else c ++ [kv])

/-- Observable state of the configuration file: absent, present but
failing to parse as a JSON object (any exception in the read-parse-merge
block), or parsed to an object. -/
inductive FileState where
  | absent
  | unreadable
  | parsed (c : ConfigRec)

/-- Model of load_config: a missing file or any parse exception yields a
copy of the defaults; a parsed object is completed with every missing
default key.  The Lean function is total, modelling that load_config
never propagates an exception. -/
def load_config : FileState → ConfigRec
  | FileState.absent => DEFAULT_CONFIG
  | FileState.unreadable => DEFAULT_CONFIG
  | FileState.parsed c => mergeMissing DEFAULT_CONFIG c

/-- Model of save_config: the file afterwards parses back to the same
object (json.dump followed by json.load is the identity on these
records). -/
def save_config (c : ConfigRec) : FileState := FileState.parsed c

/-! ## DownloadManager (process runner)

The start method resets the cancelled flag, spawns the child, then
loops: check the cancelled flag; read a line (an exception anywhere in
the try block returns code 1); on end of stream with the process exited,
break and return the process exit code; otherwise dispatch the line to
the callback.  A finally block clears the process handle on every exit
path.  The cancel method sets the flag (and kills the process, which
only hastens end of stream).

The interleaving with the cancel thread is made explicit by a schedule:
cancelTime = some t means the cancel request lands immediately before
the flag check of iteration t when t is at most lines.length (the last
check happens at iteration lines.length, just before the loop breaks);
t = lines.length + 1 means the request lands after the final flag check
but still before start returns.  readFailsAt = some i means the read of
iteration i raises.  On the Windows target the child exit code reported
by Popen.poll is a nonnegative DWORD, hence exitCode is a Nat. -/

structure DownloadManager where
  process : Option Unit
  cancelled : Bool

/-- One run of the read loop, as a function of the schedule. -/
structure StartInput where
  spawnFails : Bool
  readFailsAt : Option Nat
  cancelTime : Option Nat
  lines : List String
  exitCode : Nat

/-- Whether the cancelled flag is observed set at check number i. -/
def flagSeen : Option Nat → Nat → Bool
  | some t, i => decide (t ≤ i)
  | none, _ => false

/-- The while loop of DownloadManager.start: flag check, then read
(possibly raising), then either break at end of stream or continue. -/
def readLoop (cancelTime readFail : Option Nat) (exitCode : Nat) :
    Nat → List String → Int × String
  | i, [] =>
    if flagSeen cancelTime i then (-1, "Cancelled")
    else if readFail = some i then (1, "read error")
    else ((exitCode : Int), "Done")
  | i, _ :: rest =>
    if flagSeen cancelTime i then (-1, "Cancelled")
    else if readFail = some i then (1, "read error")
    else readLoop cancelTime readFail exitCode (i + 1) rest

/-- Model of DownloadManager.start.  Its first statement overwrites
self.cancelled with False, so the incoming state is dead; the finally
block sets the process handle to None on every exit path.  The final
cancelled flag records whether a cancel request landed during the run. -/
def DownloadManager.start (self : DownloadManager) (inp : StartInput) :
    (Int × String) × DownloadManager :=
  if inp.spawnFails then
    ((1, "spawn error"), { self with process := none, cancelled := inp.cancelTime.isSome })
  else
    (readLoop inp.cancelTime inp.readFailsAt inp.exitCode 0 inp.lines,
     { self with process := none, cancelled := inp.cancelTime.isSome })

/-- Model of DownloadManager.cancel: sets the flag (the kill only
shortens the stream, which the schedule already accounts for). -/
def DownloadManager.cancel (self : DownloadManager) : DownloadManager :=
  { self with cancelled := true }

/-- Result code of a start call, as used by the batch loop. -/
def startCode (inp : StartInput) : Int :=
  (DownloadManager.start ⟨none, false⟩ inp).1.1

/-! ## Batch worker loop

The for loop of DownloaderApp batch worker over the selected rows:
each iteration first reads the shared cancelled flag and breaks when it
is set; then runs the manager on that row; a result of -1 breaks; any
other result (success or failure) continues with the next row.  flagAt
gives the value of the shared flag observed at the check before item
idx; the function returns the indices whose download was started. -/
def batchLoopAux (flagAt : Nat → Bool) : Nat → List StartInput → List Nat
  | _, [] => []
  | idx, inp :: rest =>
    if flagAt idx then []
    else idx :: (if startCode inp = -1 then [] else batchLoopAux flagAt (idx + 1) rest)

/-- Indices of the selected batch items whose download the batch worker
starts, counting from zero. -/
def batchStartedIdx (flagAt : Nat → Bool) (inputs : List StartInput) : List Nat :=
  batchLoopAux flagAt 0 inputs

/-! ## Playlist worker (metadata fetch and download dispatch) -/

/-- Total item count derived from the metadata fetch: the length of the
entries list when the JSON parsed, otherwise the None fallback. -/
def playlistTotal (parse : Option (List String)) : Option Nat :=
  parse.map List.length

/-- The label interpolated into the start message: the Python expression
total if total else unknown renders None and zero as unknown. -/
def playlistLabel : Option Nat → String
  | some n => if n = 0 then "unknown" else toString n
  | none => "unknown"

/-- The log message announcing the playlist download. -/
def playlistStartMsg (total : Option Nat) : String :=
  "Starting playlist download (approx. " ++ playlistLabel total ++ " items)..."

/-- Model of the playlist worker between the metadata fetch and the
download invocation: a nonzero fetch code aborts (none); otherwise the
download proceeds with the derived total, the start message, and
total_items (total if total else 1). -/
def playlist_worker_plan (rc : Int) (parse : Option (List String)) :
    Option (Option Nat × String × Nat) :=
  if rc ≠ 0 then none
  else
    let total := playlistTotal parse
    some (total, playlistStartMsg total,
      match total with
      | some n => if n = 0 then 1 else n
      | none => 1)

/-! ## Line classifiers

The per-line callbacks of the single download worker and of the batch
worker, as pure functions from the current phase variable and the raw
line (with trailing newline) to the UI effects they enqueue. -/

/-- Video extensions recognised by the classifiers. -/
def videoExts : List String := [".mp4", ".webm", ".mkv", ".avi", ".mov"]

/-- Audio extensions recognised by the classifiers. -/
def audioExts : List String := [".m4a", ".mp3", ".opus", ".aac", ".wav"]

/-- Effects of one call of the single-download line callback.  progress
is the net value of the progress bar after the queued updates are
applied in order: the merger branch wins over the already-downloaded
branch, which wins over the percentage match. -/
structure SingleEff where
  percFrac : Option ℚ
  progress : Option ℚ
  title : Option String
  status : Option String
  newType : String
deriving DecidableEq

/-- Model of line_cb in _single_download_worker.  Section one matches
PERC_RE; section two handles lines marked [download] Destination: (the
text after the colon is stripped, its extension classifies the phase,
audio checked before video, and the stem becomes the title) and
otherwise lines containing both [download] and has already been
downloaded; section three sets the status for [Merger] and
[ExtractAudio] lines, the later queue entry winning. -/
def singleLineCb (currentType : String) (line : String) : SingleEff :=
  let percFrac := lineFraction line
  let isDest := containsSub "[download] Destination:" line
  let isAlready := !isDest && containsSub "[download]" line
    && containsSub "has already been downloaded" line
  let fname := pyStrip ((afterFirst "Destination:" line).getD "")
  let ext := strLower (pathExt fname)
  let mergerHit := containsSub "[Merger]" line
  let extractHit := !mergerHit && containsSub "[ExtractAudio]" line
  { percFrac := percFrac
    progress :=
      if mergerHit then some 1
      else if isAlready then some 1
      else percFrac
    title :=
      if isDest then some (pathStem fname)
      else if isAlready then some "Already downloaded"
      else none
    status :=
      if mergerHit then some "Merging Video & Audio..."
      else if extractHit then some "Extracting Audio..."
      else if isDest ∧ ext ∈ audioExts then some "Downloading Audio..."
      else if isDest ∧ ext ∈ videoExts then some "Downloading Video..."
      else none
    newType :=
      if isDest then
        (if ext ∈ audioExts then "audio" else if ext ∈ videoExts then "video" else currentType)
      else currentType }

/-- Row status written by the batch line callback. -/
inductive BatchStatus where
  | merging
  | already
  | pct (stage : String) (v : ℚ)
  | idle
deriving DecidableEq

/-- Effects of one call of the batch worker line callback. -/
structure BatchEff where
  stage : String
  status : BatchStatus
deriving DecidableEq

/-- Model of line_cb in _batch_worker.  A [download] Destination: line
updates the stage (video checked before audio) and falls through to the
percentage section; otherwise a [Merger] line sets stage and status to
merging and returns; otherwise a has-already-been-downloaded line sets
stage and status to the exists state and returns; finally a PERC_RE
match reports the current stage with the matched value (not divided by
one hundred in this callback). -/
def batchLineCb (currentStage : String) (line : String) : BatchEff :=
  let isDest := containsSub "[download] Destination:" line
  let fname := pyStrip ((afterFirst "Destination:" line).getD "")
  let ext := strLower (pathExt fname)
  let isMerger := !isDest && containsSub "[Merger]" line
  let isAlready := !isDest && !isMerger && containsSub "has already been downloaded" line
  let stage :=
    if isDest then
      (if ext ∈ videoExts then "Video"
       else if ext ∈ audioExts then "Audio"
       else currentStage)
    else if isMerger then "Merging"
    else if isAlready then "Exists"
    else currentStage
  { stage := stage
    status :=
      if isMerger then BatchStatus.merging
      else if isAlready then BatchStatus.already
      else
        match percSearch line with
        | some p => BatchStatus.pct stage (decVal p.1 p.2)
        | none => BatchStatus.idle }

/-! ## Concrete sample schedules used by witnesses and counterexamples -/

/-- A run on which the cancel request lands before the first flag check. -/
def inpCancelHit : StartInput :=
  { spawnFails := false, readFailsAt := none, cancelTime := some 0, lines := [], exitCode := 0 }

/-- A run that completes normally with exit code zero. -/
def inpPlain : StartInput :=
  { spawnFails := false, readFailsAt := none, cancelTime := none, lines := ["a"], exitCode := 0 }

/-- A run on which the cancel request lands after the final flag check
(the loop has already decided to break) but before start returns. -/
def inpRace : StartInput :=
  { spawnFails := false, readFailsAt := none, cancelTime := some 2, lines := ["x"], exitCode := 0 }

/-- A run of one line on which the cancel request lands before the
second flag check. -/
def inpCancelMid : StartInput :=
  { spawnFails := false, readFailsAt := none, cancelTime := some 1, lines := ["line one"], exitCode := 0 }

/-- A batch-loop flag that is never observed set. -/
def noFlag : Nat → Bool := fun _ => false

/-! ## Helper lemmas -/

theorem readLoop_cancelled (e : Nat) :
    ∀ (rest : List String) (i t : Nat), t ≤ i + rest.length →
      readLoop (some t) none e i rest = (-1, "Cancelled") := by
  intro rest
  induction rest with
  | nil =>
    intro i t hle
    simp only [List.length_nil, Nat.add_zero] at hle
    simp [readLoop, flagSeen, hle]
  | cons hd tl ih =>
    intro i t hle
    by_cases h : t ≤ i
    · simp [readLoop, flagSeen, h]
    · have h2 : t ≤ (i + 1) + tl.length := by
        simp only [List.length_cons] at hle; omega
      simp [readLoop, flagSeen, h, ih (i + 1) t h2]

theorem readLoop_neg_one (e : Nat) :
    ∀ (rest : List String) (c r : Option Nat) (i : Nat),
      (readLoop c r e i rest).1 = -1 → ∃ t, c = some t ∧ t ≤ i + rest.length := by
  intro rest
  induction rest with
  | nil =>
    intro c r i h
    simp only [readLoop] at h
    split at h
    · rename_i hf
      cases c with
      | none => simp [flagSeen] at hf
      | some t =>
        refine ⟨t, rfl, ?_⟩
        simp only [flagSeen, decide_eq_true_eq] at hf
        omega
    · split at h
      · simp at h
      · exfalso; omega
  | cons hd tl ih =>
    intro c r i h
    simp only [readLoop] at h
    split at h
    · rename_i hf
      cases c with
      | none => simp [flagSeen] at hf
      | some t =>
        refine ⟨t, rfl, ?_⟩
        simp only [flagSeen, decide_eq_true_eq] at hf
        simp only [List.length_cons]
        omega
    · split at h
      · simp at h
      · obtain ⟨t, ht, hle⟩ := ih c r (i + 1) h
        refine ⟨t, ht, ?_⟩
        simp only [List.length_cons]
        omega

theorem batchLoopAux_mem (flagAt : Nat → Bool) :
    ∀ (rest : List StartInput) (idx j : Nat), j ∈ batchLoopAux flagAt idx rest →
      idx ≤ j ∧ (∀ i, idx ≤ i → i ≤ j → flagAt i = false) ∧
      (∀ i inp, idx ≤ i → i < j → rest[i - idx]? = some inp → startCode inp ≠ -1) := by
  intro rest
  induction rest with
  | nil => intro idx j h; simp [batchLoopAux] at h
  | cons hd tl ih =>
    intro idx j h
    unfold batchLoopAux at h
    by_cases hf : flagAt idx
    · simp [hf] at h
    · rw [if_neg hf] at h
      have hfz : flagAt idx = false := by simpa using hf
      rcases List.mem_cons.mp h with rfl | htail
      · refine ⟨le_refl _, ?_, ?_⟩
        · intro i h1 h2
          have he : i = j := le_antisymm h2 h1
          subst he; exact hfz
        · intro i inp h1 h2 _
          omega
      · by_cases hc : startCode hd = -1
        · simp [hc] at htail
        · rw [if_neg hc] at htail
          obtain ⟨hle, hflags, hres⟩ := ih (idx + 1) j htail
          refine ⟨by omega, ?_, ?_⟩
          · intro i h1 h2
            rcases Nat.eq_or_lt_of_le h1 with he | hlt
            · subst he; exact hfz
            · exact hflags i hlt h2
          · intro i inp h1 h2 hget
            rcases Nat.eq_or_lt_of_le h1 with he | hlt
            · subst he
              rw [Nat.sub_self, List.getElem?_cons_zero] at hget
              injection hget with hinp
              subst hinp
              exact hc
            · have hidx : (hd :: tl)[i - idx]? = tl[i - (idx + 1)]? := by
                have h0 : i - idx = (i - (idx + 1)) + 1 := by omega
                rw [h0, List.getElem?_cons_succ]
              rw [hidx] at hget
              exact hres i inp (by omega) h2 hget

theorem dictLookup_append_some (k : String) (v : CVal) :
    ∀ (c d : ConfigRec), dictLookup k c = some v → dictLookup k (c ++ d) = some v := by
  intro c
  induction c with
  | nil => intro d h; simp [dictLookup] at h
  | cons kv rest ih =>
    intro d h
    by_cases he : kv.1 = k
    · simp [dictLookup, he] at h ⊢; exact h
    · simp [dictLookup, he] at h ⊢; exact ih d h

theorem dictLookup_append_none (k : String) :
    ∀ (c d : ConfigRec), dictLookup k c = none → dictLookup k (c ++ d) = dictLookup k d := by
  intro c
  induction c with
  | nil => intro d _; simp
  | cons kv rest ih =>
    intro d h
    by_cases he : kv.1 = k
    · simp [dictLookup, he] at h
    · simp [dictLookup, he] at h ⊢; exact ih d h

theorem mergeMissing_pres (k : String) (v : CVal) :
    ∀ (ds : List (String × CVal)) (c : ConfigRec), dictLookup k c = some v →
      dictLookup k (mergeMissing ds c) = some v := by
  intro ds
  induction ds with
  | nil => intro c h; exact h
  | cons kv rest ih =>
    intro c h
    unfold mergeMissing
    by_cases hs : (dictLookup kv.1 c).isSome
    · rw [if_pos hs]; exact ih c h
    · rw [if_neg hs]; exact ih _ (dictLookup_append_some k v c [kv] h)

theorem mergeMissing_covers (k : String) (v : CVal) :
    ∀ (ds : List (String × CVal)) (c : ConfigRec), (k, v) ∈ ds →
      (dictLookup k (mergeMissing ds c)).isSome = true := by
  intro ds
  induction ds with
  | nil => intro c h; simp at h
  | cons kv rest ih =>
    intro c h
    rcases List.mem_cons.mp h with he | htail
    · unfold mergeMissing
      by_cases hs : (dictLookup kv.1 c).isSome
      · rw [if_pos hs]
        rw [← he] at hs
        obtain ⟨w, hw⟩ := Option.isSome_iff_exists.mp hs
        rw [mergeMissing_pres k w rest c hw]
        rfl
      · rw [if_neg hs]
        have hnone : dictLookup k c = none := by
          rw [← he] at hs
          exact Option.not_isSome_iff_eq_none.mp hs
        have happ : dictLookup k (c ++ [kv]) = some v := by
          rw [dictLookup_append_none k c [kv] hnone, ← he]
          simp [dictLookup]
        rw [mergeMissing_pres k v rest _ happ]
        rfl
    · unfold mergeMissing
      by_cases hs : (dictLookup kv.1 c).isSome
      · rw [if_pos hs]; exact ih c htail
      · rw [if_neg hs]; exact ih _ htail

theorem mergeMissing_default (k : String) (v : CVal) :
    ∀ (ds : List (String × CVal)), (ds.map Prod.fst).Nodup → (k, v) ∈ ds →
      ∀ c, dictLookup k c = none → dictLookup k (mergeMissing ds c) = some v := by
  intro ds
  induction ds with
  | nil => intro _ h; simp at h
  | cons kv rest ih =>
    intro hnd h c hnone
    have hnd' : (rest.map Prod.fst).Nodup := (List.nodup_cons.mp hnd).2
    rcases List.mem_cons.mp h with he | htail
    · unfold mergeMissing
      have hkvk : kv.1 = k := by rw [← he]
      rw [hkvk, hnone]
      rw [if_neg (by simp)]
      have happ : dictLookup k (c ++ [kv]) = some v := by
        rw [dictLookup_append_none k c [kv] hnone, ← he]
        simp [dictLookup]
      exact mergeMissing_pres k v rest _ happ
    · have hne : kv.1 ≠ k := by
        intro he1
        have hk : k ∈ rest.map Prod.fst := List.mem_map.mpr ⟨(k, v), htail, rfl⟩
        have : kv.1 ∉ rest.map Prod.fst := (List.nodup_cons.mp hnd).1
        rw [he1] at this
        exact this hk
      unfold mergeMissing
      by_cases hs : (dictLookup kv.1 c).isSome
      · rw [if_pos hs]; exact ih hnd' htail c hnone
      · rw [if_neg hs]
        have hnone2 : dictLookup k (c ++ [kv]) = none := by
          rw [dictLookup_append_none k c [kv] hnone]
          simp [dictLookup, hne]
        exact ih hnd' htail _ hnone2

theorem mergeMissing_complete :
    ∀ (ds : List (String × CVal)) (c : ConfigRec),
      (ds.all fun kv => (dictLookup kv.1 c).isSome) = true → mergeMissing ds c = c := by
  intro ds
  induction ds with
  | nil => intro c _; rfl
  | cons kv rest ih =>
    intro c h
    rw [List.all_cons, Bool.and_eq_true] at h
    unfold mergeMissing
    rw [if_pos h.1]
    exact ih c h.2

theorem audio_not_video (e : String) (hv : e ∈ videoExts) : e ∉ audioExts := by
  fin_cases hv <;> decide

/-! ## Claims -/

/-- Claim C1, counterexample to the claim as stated.  On the run
inpRace the cancel request lands during the run of start (the cancelled
flag is set before start returns, cancelTime is some 2) yet it lands
after the final flag check of the read loop, so start returns the exit
code 0 of the child instead of the cancelled sentinel -1. -/
theorem cancel_after_final_check_returns_exit_code :
    (DownloadManager.start ⟨none, false⟩ inpRace).1.1 = 0 ∧
    inpRace.cancelTime.isSome = true := by
  constructor <;> rfl

/-- Claim C1, amended: whenever the cancel request lands before one of
the flag checks of the read loop (the last check happens at iteration
lines.length, just before the loop would break), and the run is not
already terminated by a spawn or read exception, start returns the
cancelled sentinel -1 with message Cancelled, regardless of the exit
code of the killed child. -/
theorem cancel_observed_yields_cancelled (m : DownloadManager) (inp : StartInput) (t : Nat)
    (hspawn : inp.spawnFails = false) (hread : inp.readFailsAt = none)
    (hc : inp.cancelTime = some t) (ht : t ≤ inp.lines.length) :
    (DownloadManager.start m inp).1 = (-1, "Cancelled") := by
  unfold DownloadManager.start
  rw [hspawn]
  simp only [Bool.false_eq_true, if_false]
  rw [hc, hread]
  exact readLoop_cancelled inp.exitCode inp.lines 0 t (by simpa using ht)

/-- Claim C1, witness for the amended theorem at a concrete schedule. -/
theorem cancel_observed_yields_cancelled_witness :
    (DownloadManager.start ⟨none, false⟩ inpCancelMid).1 = (-1, "Cancelled") :=
  cancel_observed_yields_cancelled ⟨none, false⟩ inpCancelMid 1 rfl rfl rfl (by decide)

/-- Claim C2: on every exit path of DownloadManager.start (spawn
exception, read exception, cancellation, normal or failing exit code)
the process handle of the returned manager state is None. -/
theorem start_clears_process_handle (m : DownloadManager) (inp : StartInput) :
    ((DownloadManager.start m inp).2).process = none := by
  unfold DownloadManager.start
  by_cases h : inp.spawnFails <;> simp [h]

/-- Claim C5: if the run of batch item K returns the cancelled sentinel
-1, or the shared cancelled flag is observed set at the loop check that
precedes dispatching item K plus one, then no later item is started by
the batch worker. -/
theorem batch_stops_after_cancelled_item (flagAt : Nat → Bool) (inputs : List StartInput)
    (K j : Nat) (inpK : StartInput)
    (hK : (inputs[K]? = some inpK ∧ startCode inpK = -1) ∨ flagAt (K + 1) = true)
    (hj : K < j) : j ∉ batchStartedIdx flagAt inputs := by
  intro hmem
  obtain ⟨-, hflags, hres⟩ := batchLoopAux_mem flagAt inputs 0 j hmem
  rcases hK with ⟨hget, hcode⟩ | hflag
  · exact hres K inpK (Nat.zero_le K) hj (by simpa using hget) hcode
  · have h1 : K + 1 ≤ j := hj
    have h2 := hflags (K + 1) (Nat.zero_le _) h1
    rw [hflag] at h2
    cases h2

/-- Claim C5, witness: in a two item batch whose first item is
cancelled, the second item is never started. -/
theorem batch_stops_after_cancelled_item_witness :
    1 ∉ batchStartedIdx noFlag [inpCancelHit, inpPlain] :=
  batch_stops_after_cancelled_item noFlag [inpCancelHit, inpPlain] 0 1 inpCancelHit
    (Or.inl ⟨rfl, by decide⟩) (by decide)

/-- Claim C10: the result of DownloadManager.start is independent of the
incoming manager state, in particular of a stale cancelled flag left by
a cancel issued before start begins (the first statement of start
overwrites the flag with False); and the cancelled sentinel -1 can only
be returned when a cancel request lands during the run, at one of the
read-loop flag checks. -/
theorem start_resets_cancelled_flag (m m2 : DownloadManager) (inp : StartInput) :
    DownloadManager.start m inp = DownloadManager.start m2 inp ∧
    ((DownloadManager.start m inp).1.1 = -1 →
      inp.spawnFails = false ∧ ∃ t, inp.cancelTime = some t ∧ t ≤ inp.lines.length) := by
  refine ⟨rfl, ?_⟩
  intro h
  unfold DownloadManager.start at h
  by_cases hs : inp.spawnFails
  · rw [if_pos hs] at h
    simp at h
  · rw [if_neg hs] at h
    have hsf : inp.spawnFails = false := by simpa using hs
    obtain ⟨t, ht, hle⟩ := readLoop_neg_one inp.exitCode inp.lines inp.cancelTime inp.readFailsAt 0 h
    exact ⟨hsf, t, ht, by simpa using hle⟩

/-- Claim C10, witness: a run that is cancelled at the first check
returns -1, and the theorem recovers the in-run cancel that produced
it even when the incoming state carries a stale cancelled flag. -/
theorem start_resets_cancelled_flag_witness :
    inpCancelHit.spawnFails = false :=
  ((start_resets_cancelled_flag ⟨none, true⟩ ⟨none, false⟩ inpCancelHit).2 (by decide)).1

/-- Claim C3, counterexample to the claim as stated.  The callback never
clamps: a line whose first match is 999.9 percent yields the fraction
9.999, while the claimed clamped value is 1. -/
theorem percent_fraction_not_clamped_counterexample :
    lineFraction "[download] 999.9% of 10.00MiB" = some (9999 / 1000) ∧
    clampedFraction "[download] 999.9% of 10.00MiB" = some 1 ∧
    ((9999 : ℚ) / 1000 ≠ 1) := by
  have hs : percSearch "[download] 999.9% of 10.00MiB" = some (['9', '9', '9'], ['9']) := by
    decide
  have hn1 : natOfDigits ['9', '9', '9'] = 999 := by decide
  have hn2 : natOfDigits ['9'] = 9 := by decide
  have hv : decVal ['9', '9', '9'] ['9'] / 100 = 9999 / 1000 := by
    rw [decVal, hn1, hn2]
    norm_num [List.length_cons, List.length_nil]
  refine ⟨?_, ?_, by norm_num⟩
  · rw [lineFraction, hs]
    simp only [Option.map_some']
    rw [hv]
  · rw [clampedFraction, hs]
    simp only [Option.map_some']
    rw [clamp01, hv]
    rw [min_eq_right (by norm_num : (1 : ℚ) ≤ 9999 / 1000),
      max_eq_right (by norm_num : (0 : ℚ) ≤ 1)]

/-- Claim C3, amended: for every line on which PERC_RE matches, the
fraction computed by the single-download callback equals the decimal
value of the first matched group divided by 100, with no clamping; the
value is nonnegative, and on matches of at most 100 percent it agrees
with the clamped fraction of the claim. -/
theorem percent_fraction_amended (ct s : String) (a b : List Char)
    (h : percSearch s = some (a, b)) :
    lineFraction s = some (decVal a b / 100) ∧
    (singleLineCb ct s).percFrac = some (decVal a b / 100) ∧
    0 ≤ decVal a b / 100 ∧
    (decVal a b ≤ 100 → clampedFraction s = lineFraction s) := by
  have h0 : 0 ≤ decVal a b := by
    unfold decVal
    positivity
  have h1 : lineFraction s = some (decVal a b / 100) := by
    simp [lineFraction, h]
  refine ⟨h1, ?_, ?_, ?_⟩
  · simpa [singleLineCb] using h1
  · positivity
  · intro hle
    have hle1 : decVal a b / 100 ≤ 1 := by
      rw [div_le_one (by norm_num : (0 : ℚ) < 100)]
      exact hle
    have hnn : 0 ≤ decVal a b / 100 := by positivity
    simp [clampedFraction, h, h1, clamp01, min_eq_left hle1, max_eq_right hnn]

/-- Claim C3, witness: the line of the claim yields exactly the fraction
0.452 as 113 over 250, and it is nonnegative. -/
theorem percent_fraction_amended_witness :
    lineFraction "[download]  45.2% of 10.00MiB" = some (113 / 250) ∧
    0 ≤ decVal ['4', '5'] ['2'] / 100 := by
  have h := percent_fraction_amended "video" "[download]  45.2% of 10.00MiB"
    ['4', '5'] ['2'] (by decide)
  have hn1 : natOfDigits ['4', '5'] = 45 := by decide
  have hn2 : natOfDigits ['2'] = 2 := by decide
  have hv : decVal ['4', '5'] ['2'] / 100 = 113 / 250 := by
    rw [decVal, hn1, hn2]
    norm_num [List.length_cons, List.length_nil]
  exact ⟨h.1.trans (congrArg some hv), h.2.2.1⟩

/-- Claim C4, counterexample to the claim as stated.  The callbacks only
react to the marker [download] Destination:, not to every line
containing Destination:.  An extract-audio destination line contains
Destination: and names an audio file, yet no title is derived, the
phase variable keeps its previous value, and the batch stage keeps its
previous value. -/
theorem destination_requires_download_tag_counterexample :
    containsSub "Destination:" "[ExtractAudio] Destination: /x/y/Song.mp3\n" = true ∧
    (singleLineCb "video" "[ExtractAudio] Destination: /x/y/Song.mp3\n").title = none ∧
    (singleLineCb "video" "[ExtractAudio] Destination: /x/y/Song.mp3\n").newType = "video" ∧
    (batchLineCb "Init" "[ExtractAudio] Destination: /x/y/Song.mp3\n").stage = "Init" := by
  refine ⟨by decide, by decide, by decide, by decide⟩

/-- Claim C4, amended: for every line containing the marker
[download] Destination:, with fname the stripped text after the first
Destination: occurrence, the single-download callback sets the display
title to the basename of fname without its extension, and the
lowercased extension classifies the phase, audio extensions first, then
video extensions; the batch callback sets its stage from the same
extension, video first. -/
theorem destination_classification_amended (ct st line fname : String)
    (hdest : containsSub "[download] Destination:" line = true)
    (hf : pyStrip ((afterFirst "Destination:" line).getD "") = fname) :
    (singleLineCb ct line).title = some (pathStem fname) ∧
    (strLower (pathExt fname) ∈ audioExts → (singleLineCb ct line).newType = "audio") ∧
    (strLower (pathExt fname) ∈ videoExts → (singleLineCb ct line).newType = "video") ∧
    (batchLineCb st line).stage =
      (if strLower (pathExt fname) ∈ videoExts then "Video"
       else if strLower (pathExt fname) ∈ audioExts then "Audio"
       else st) := by
  subst hf
  refine ⟨?_, ?_, ?_, ?_⟩
  · simp [singleLineCb, hdest]
  · intro ha
    simp [singleLineCb, hdest, ha]
  · intro hv
    have ha := audio_not_video _ hv
    simp [singleLineCb, hdest, hv, ha]
  · simp [batchLineCb, hdest]

/-- Claim C4, witness for the amended theorem on the line of the claim:
title My Video, phase video, batch stage Video. -/
theorem destination_classification_amended_witness :
    (singleLineCb "audio" "[download] Destination: /x/y/My Video.mp4\n").title = some "My Video" ∧
    (singleLineCb "audio" "[download] Destination: /x/y/My Video.mp4\n").newType = "video" ∧
    (batchLineCb "Init" "[download] Destination: /x/y/My Video.mp4\n").stage = "Video" := by
  have h := destination_classification_amended "audio" "Init"
    "[download] Destination: /x/y/My Video.mp4\n" "/x/y/My Video.mp4" (by decide) (by decide)
  exact ⟨h.1.trans (by decide), h.2.2.1 (by decide), h.2.2.2.trans (by decide)⟩

/-- Claim C8, counterexample to the claim as stated.  The single
download callback requires the substring [download] in addition to has
already been downloaded: on a line with only the latter it neither
forces the progress to 1 nor marks the item complete. -/
theorem already_downloaded_requires_download_tag_counterexample :
    containsSub "has already been downloaded" "/d/f.mp4 has already been downloaded\n" = true ∧
    (singleLineCb "video" "/d/f.mp4 has already been downloaded\n").progress = none ∧
    (singleLineCb "video" "/d/f.mp4 has already been downloaded\n").title = none := by
  refine ⟨by decide, by decide, by decide⟩

/-- Claim C8, amended: a line containing both [download] and has
already been downloaded, and not containing [download] Destination:,
makes the single-download callback force the progress to 1 and the
title to Already downloaded; the batch callback marks the row Exists on
any such line containing has already been downloaded, provided the line
also contains neither [download] Destination: nor [Merger]. -/
theorem already_downloaded_amended (ct st line : String)
    (h1 : containsSub "[download]" line = true)
    (h2 : containsSub "has already been downloaded" line = true)
    (h3 : containsSub "[download] Destination:" line = false) :
    (singleLineCb ct line).progress = some 1 ∧
    (singleLineCb ct line).title = some "Already downloaded" ∧
    (containsSub "[Merger]" line = false → (batchLineCb st line).status = BatchStatus.already) := by
  refine ⟨?_, ?_, ?_⟩
  · by_cases hm : containsSub "[Merger]" line <;> simp [singleLineCb, h1, h2, h3, hm]
  · simp [singleLineCb, h1, h2, h3]
  · intro hm
    simp [batchLineCb, h2, h3, hm]

/-- Claim C8, witness for the amended theorem on a concrete line. -/
theorem already_downloaded_amended_witness :
    (singleLineCb "video" "[download] /d/f.mp4 has already been downloaded\n").progress = some 1 ∧
    (batchLineCb "Init" "[download] /d/f.mp4 has already been downloaded\n").status
      = BatchStatus.already := by
  have h := already_downloaded_amended "video" "Init"
    "[download] /d/f.mp4 has already been downloaded\n" (by decide) (by decide) (by decide)
  exact ⟨h.1, h.2.2 (by decide)⟩

/-- Claim C6: loading a parsed record keeps every stored key at its
stored value, contains every default key, fills each missing default
key with its default value, and saving then loading a record that
already has all default keys reproduces it exactly. -/
theorem config_merge_and_roundtrip (c : ConfigRec) :
    (∀ k v, dictLookup k c = some v →
      dictLookup k (load_config (FileState.parsed c)) = some v) ∧
    (∀ k v, (k, v) ∈ DEFAULT_CONFIG →
      (dictLookup k (load_config (FileState.parsed c))).isSome = true) ∧
    (∀ k v, (k, v) ∈ DEFAULT_CONFIG → dictLookup k c = none →
      dictLookup k (load_config (FileState.parsed c)) = some v) ∧
    ((DEFAULT_CONFIG.all fun kv => (dictLookup kv.1 c).isSome) = true →
      load_config (save_config c) = c) := by
  refine ⟨?_, ?_, ?_, ?_⟩
  · intro k v h
    exact mergeMissing_pres k v DEFAULT_CONFIG c h
  · intro k v h
    exact mergeMissing_covers k v DEFAULT_CONFIG c h
  · intro k v h hnone
    exact mergeMissing_default k v DEFAULT_CONFIG (by decide) h c hnone
  · intro h
    exact mergeMissing_complete DEFAULT_CONFIG c h

/-- Claim C6, witness: a stored record holding only a theme keeps its
theme, gains the default audio format, and a complete record survives a
save and load round trip unchanged. -/
theorem config_merge_and_roundtrip_witness :
    dictLookup "theme" (load_config (FileState.parsed [("theme", CVal.s "light")]))
      = some (CVal.s "light") ∧
    dictLookup "audio_format" (load_config (FileState.parsed [("theme", CVal.s "light")]))
      = some (CVal.s "m4a") ∧
    load_config (save_config DEFAULT_CONFIG) = DEFAULT_CONFIG := by
  refine ⟨?_, ?_, ?_⟩
  · exact (config_merge_and_roundtrip [("theme", CVal.s "light")]).1 "theme" (CVal.s "light") rfl
  · exact (config_merge_and_roundtrip [("theme", CVal.s "light")]).2.2.1 "audio_format"
      (CVal.s "m4a") (by decide) rfl
  · exact (config_merge_and_roundtrip DEFAULT_CONFIG).2.2.2 (by decide)

/-- Claim C7: when the metadata fetch exits with code zero but its
output fails to parse, the playlist worker does not abort: the total
falls back to None, the download is still dispatched, and the start
message labels the total as unknown. -/
theorem playlist_parse_failure_proceeds_unknown (rc : Int) (parse : Option (List String))
    (h0 : rc = 0) (hp : parse = none) :
    playlist_worker_plan rc parse =
      some (none, "Starting playlist download (approx. unknown items)...", 1) ∧
    (playlist_worker_plan rc parse).isSome = true := by
  subst h0 hp
  exact ⟨by decide, by decide⟩

/-- Claim C7, witness at the concrete failing fetch. -/
theorem playlist_parse_failure_proceeds_unknown_witness :
    playlist_worker_plan 0 none =
      some (none, "Starting playlist download (approx. unknown items)...", 1) :=
  (playlist_parse_failure_proceeds_unknown 0 none rfl rfl).1

/-- Claim C9: load_config is total in this model (no exception escapes),
and both an absent configuration file and one whose contents fail to
parse yield exactly the complete default record. -/
theorem load_config_defaults_on_missing_or_invalid :
    load_config FileState.absent = DEFAULT_CONFIG ∧
    load_config FileState.unreadable = DEFAULT_CONFIG :=
  ⟨rfl, rfl⟩
